import Mathlib

/-!
Verification of the max-spacing k-clustering repository.

The development shallowly embeds, faithful to the Python source:
* the `Union_Find` class of `src/max_spacing_k_clustering.py` (including its
  broken `_combine` iteration, which unpacks the integer elements of a
  `range` object as pairs and therefore raises `TypeError`);
* `sort_edges` (Python's `sorted` with key `x[2]`, a stable sort by cost);
* the two placeholder entry points, which return `None`.

The greedy cluster engine, the disjoint-set it is specified to use, and the
implicit Hamming candidate generator are absent from the source (the entry
points are placeholders), so those are modelled from the spec, with doc
comments marking each such definition.
-/

/-- Python runtime errors that the embedded code can raise. -/
inductive PyError where
  | typeError
  | indexError
  deriving DecidableEq, Repr

/-- State of the Python `Union_Find` object from
`src/max_spacing_k_clustering.py`.  `parents` models `self._parents`
(initialized to `range(1, n + 1)`), `cluster_sizes` models
`self._cluster_sizes` (`[1] * n`) and `num_clusters` models
`self._num_clusters`.  Python integers are unbounded and the counter is
decremented, so it is embedded as `Int`. -/
structure Union_Find where
  parents : List Nat
  cluster_sizes : List Nat
  num_clusters : Int
  deriving DecidableEq, Repr

/-- `Union_Find.__init__(n)`: `self._parents = range(1, n + 1)`,
`self._cluster_sizes = [1] * n`, `self._num_clusters = n`. -/
def Union_Find.init (n : Nat) : Union_Find :=
  { parents := List.range' 1 n
    cluster_sizes := List.replicate n 1
    num_clusters := (n : Int) }

/-- The `while p != self._parents[p - 1]` loop of `Union_Find.root`,
embedded with fuel since Python gives no termination guarantee for an
arbitrary parents sequence.  `none` models a raised `IndexError` (index out
of range) or fuel exhaustion; on every state this program actually builds,
`parents` is the untouched `range(1, n + 1)`, so for an in-range node the
loop stops at once.  Nodes are taken to be ≥ 1, as in the file format, so
Python's negative-index wraparound is never exercised. -/
def Union_Find.rootFuel (ps : List Nat) : Nat → Nat → Option Nat
  | 0, _ => none
  | fuel + 1, p =>
    match ps[p - 1]? with
    | none => none
    | some q => if p = q then some p else Union_Find.rootFuel ps fuel q

/-- `Union_Find.root(node)`. -/
def Union_Find.root (uf : Union_Find) (node : Nat) : Option Nat :=
  Union_Find.rootFuel uf.parents (uf.parents.length + 1) node

/-- `Union_Find._combine(old_root, new_root, new_cluster_size)`.  The
method first executes `self._num_clusters -= 1`, then runs
`for node_i, parent in self._parents:`.  `self._parents` is a `range`
object whose elements are plain integers, so unpacking the first element
as a pair raises `TypeError`; the loop body (and with it every parent or
size update) never executes.  When `parents` is empty the loop body is
skipped and no error is raised.  The returned pair is the state after the
call (Python mutations before the raise persist) together with the raised
error, if any. -/
def Union_Find.combine (uf : Union_Find) (_old_root _new_root _new_cluster_size : Nat) :
    Union_Find × Option PyError :=
  let uf' := { uf with num_clusters := uf.num_clusters - 1 }
  match uf'.parents with
  | [] => (uf', none)
  | _ :: _ => (uf', some PyError.typeError)

/-- `Union_Find.union(u, v)`: computes both roots, reads
`self._cluster_sizes[u - 1]` and `self._cluster_sizes[v - 1]`, then calls
`_combine` with the larger-size root surviving.  There is no
same-root check and no `return` statement (Python returns `None`).
Failures of `root` or of the size lookups surface as `indexError`. -/
def Union_Find.union (uf : Union_Find) (u v : Nat) : Union_Find × Option PyError :=
  match uf.root u with
  | none => (uf, some PyError.indexError)
  | some u_root =>
    match uf.root v with
    | none => (uf, some PyError.indexError)
    | some v_root =>
      match uf.cluster_sizes[u - 1]?, uf.cluster_sizes[v - 1]? with
      | some u_cluster_size, some v_cluster_size =>
        let new_cluster_size := u_cluster_size + v_cluster_size
        if v_cluster_size ≤ u_cluster_size then
          uf.combine v_root u_root new_cluster_size
        else
          uf.combine u_root v_root new_cluster_size
      | _, _ => (uf, some PyError.indexError)

/-- An explicit edge `[u, v, cost]` as parsed by `sort_edges`. -/
structure Edge where
  u : Nat
  v : Nat
  cost : Nat
  deriving DecidableEq, Repr

/-- Cost comparison used to sort edges (`key=lambda x: x[2]`). -/
def Edge.le (a b : Edge) : Prop := a.cost ≤ b.cost

instance : DecidableRel Edge.le := fun a b => inferInstanceAs (Decidable (a.cost ≤ b.cost))

instance : IsTotal Edge Edge.le := ⟨fun a b => Nat.le_total a.cost b.cost⟩

instance : IsTrans Edge Edge.le := ⟨fun _ _ _ h h' => Nat.le_trans h h'⟩

/-- `sort_edges`: the source reads the edge list from a file (scaffolding,
out of core scope) and returns `sorted(edges, key=lambda x: x[2])`.
Python's `sorted` is a stable sort by the key, here the cost; a stable
sort by a key is extensionally unique, so it is embedded as the stable
insertion sort on the cost order. -/
def sort_edges (edges : List Edge) : List Edge :=
  List.insertionSort Edge.le edges

/-- `max_spacing_k_clustering(filename, k_clusters)` from
`src/max_spacing_k_clustering.py`: the body is `return None`. -/
def max_spacing_k_clustering (_filename : String) (_k_clusters : Int) : Option Int :=
  none

/-- `max_k_clusters_for_min_spacing(filename, min_spacing)` from
`src/max_k_clusters_for_min_spacing.py`: the body is `return None`. -/
def max_k_clusters_for_min_spacing (_filename : String) (_min_spacing : Int) : Option Int :=
  none

/-- Modelled from the spec: the `DisjointSet` component (spec §4.1) that the
greedy cluster engine is specified to drive.  The source's only union-find
(`Union_Find` above) is broken and the engine itself is absent (the entry
points are placeholders), so this follows the spec's contract: `make n`
gives n singleton clusters over nodes 1..n, `find` returns a canonical
representative, `union` merges two clusters exactly when they differ and
reports whether a merge occurred, `clusterCount` counts distinct clusters.
The spec states union-by-size and path compression are internal
optimizations, not observable contract, so the representative-array
(quick-find) realization is used. -/
structure DisjointSet where
  n : Nat
  rep : List Nat
  deriving DecidableEq, Repr

/-- Modelled from the spec: `make(n)` initializes n singleton clusters;
node i is its own representative. -/
def DisjointSet.make (n : Nat) : DisjointSet :=
  { n := n, rep := List.range' 1 n }

/-- Modelled from the spec: `find(x)` returns the representative of x's
cluster (0 for an out-of-range node; claims only query in-range nodes). -/
def DisjointSet.find (d : DisjointSet) (x : Nat) : Nat :=
  d.rep.getD (x - 1) 0

/-- Modelled from the spec: `union(x,y)` merges the clusters containing x
and y if they differ and returns whether a merge occurred, `false` when x
and y are already in the same cluster (in which case the state is
unchanged). -/
def DisjointSet.union (d : DisjointSet) (x y : Nat) : Bool × DisjointSet :=
  let rx := d.find x
  let ry := d.find y
  if rx = ry then (false, d)
  else (true, { n := d.n, rep := d.rep.map fun r => if r = ry then rx else r })

/-- Modelled from the spec: `clusterCount()` returns the current number of
distinct clusters. -/
def DisjointSet.clusterCount (d : DisjointSet) : Nat :=
  d.rep.dedup.length

/-- Failure taxonomy of the engine (spec §7); only `insufficientClusters`
is reachable from the operations modelled here. -/
inductive ClusterError where
  | insufficientClusters
  deriving DecidableEq, Repr

/-- Modelled from the spec: the main loop of `spacingForTargetK`
(spec §4.4).  While the cluster count still exceeds k, each edge (taken in
the given order, which the wrapper makes ascending by cost) has its
endpoints unioned whenever they lie in different clusters; once the count
equals k, the scan continues in the same order and returns the cost of the
first edge whose endpoints are still in different clusters.  Exhausting
the edges first means k clusters were not reachable. -/
def findSpacing (d : DisjointSet) (k : Nat) : List Edge → Except ClusterError Nat
  | [] => Except.error ClusterError.insufficientClusters
  | e :: rest =>
    if d.clusterCount = k then
      if d.find e.u = d.find e.v then findSpacing d k rest
      else Except.ok e.cost
    else
      findSpacing (d.union e.u e.v).2 k rest

/-- Modelled from the spec: `spacingForTargetK(edgeSource, k)` (spec §4.4).
Fails with `InsufficientClusters` when k ≤ 0 (here k = 0, as k is a count)
or k > N; otherwise pulls the edges in ascending cost order via the
stable `sort_edges` and runs the greedy merge-then-scan loop on N
singletons. -/
def spacingForTargetK (edges : List Edge) (n k : Nat) : Except ClusterError Nat :=
  if k = 0 ∨ n < k then Except.error ClusterError.insufficientClusters
  else findSpacing (DisjointSet.make n) k (sort_edges edges)

/-- Modelled from the spec: the repository's example dataset
(`minimum_spanning_tree_ex.txt`) is not under `src/`; this complete edge
list on 4 nodes realizes the spec's stated expected results
`spacingForTargetK(...,2)=5`, `(...,3)=2`, `(...,4)=1` simultaneously. -/
def exampleEdges : List Edge :=
  [⟨1, 2, 1⟩, ⟨3, 4, 2⟩, ⟨1, 3, 5⟩, ⟨1, 4, 6⟩, ⟨2, 3, 7⟩, ⟨2, 4, 8⟩]

/-- Hamming distance between two bit-labels of `w` bits: the number of bit
positions below `w` where the labels differ (spec glossary). -/
def hammingDistance (w a b : Nat) : Nat :=
  ((Finset.range w).filter fun t => a.testBit t ≠ b.testBit t).card

/-- Modelled from the spec: the per-node lookup schedule of
`ImplicitHammingSource` (spec §4.3).  For a node with label `L` the map is
probed at `L` itself (distance-0 duplicates), at `L` with each single bit
position below `bitWidth` flipped, and at `L` with each unordered pair of
distinct bit positions flipped — and at nothing else. -/
def lookups (w L : Nat) : List Nat :=
  L :: (((List.range w).map fun i => L ^^^ (2 ^ i)) ++
    ((List.range w).flatMap fun j => (List.range j).map fun i => L ^^^ (2 ^ i ^^^ 2 ^ j)))

/-- All ordered-as-unordered candidate node pairs (i, j) with
1 ≤ i < j ≤ n. -/
def allPairs (n : Nat) : List (Nat × Nat) :=
  (List.range' 1 n).flatMap fun i => (List.range' (i + 1) (n - i)).map fun j => (i, j)

/-- Label of node i (1-indexed) in a label list. -/
def labelOf (labels : List Nat) (i : Nat) : Nat :=
  labels.getD (i - 1) 0

/-- Modelled from the spec: the candidate pairs of one exact distance
class d — the node pairs whose `bitWidth`-bit labels are at Hamming
distance exactly d (spec §4.3; within a class order is irrelevant). -/
def pairsAtDistance (labels : List Nat) (w d : Nat) : List (Nat × Nat) :=
  (allPairs labels.length).filter fun p =>
    hammingDistance w (labelOf labels p.1) (labelOf labels p.2) = d

/-- Modelled from the spec: the pairs `maxKForMinSpacing` feeds to `union`
— every candidate pair of each distance class d from 1 up to
minSpacing − 1 inclusive, classes taken in ascending order (spec §4.4). -/
def processedPairs (labels : List Nat) (w minSpacing : Nat) : List (Nat × Nat) :=
  (List.range' 1 (minSpacing - 1)).flatMap fun d => pairsAtDistance labels w d

/-- Modelled from the spec: `maxKForMinSpacing(hammingSource, minSpacing)`
(spec §4.4).  Unions every candidate pair in each distance class below
minSpacing, classes in ascending order, then returns `clusterCount()`. -/
def maxKForMinSpacing (labels : List Nat) (w minSpacing : Nat) : Nat :=
  ((processedPairs labels w minSpacing).foldl
    (fun d p => (d.union p.1 p.2).2) (DisjointSet.make labels.length)).clusterCount

/-- On a freshly initialized `Union_Find`, `parents` is `range(1, n + 1)`,
so the root loop of an in-range node stops immediately at the node itself. -/
theorem Union_Find.root_init (n p : Nat) (h1 : 1 ≤ p) (h2 : p ≤ n) :
    (Union_Find.init n).root p = some p := by
  have hget : (List.range' 1 n)[p - 1]? = some p := by
    have h := List.getElem?_range' 1 1 (show p - 1 < n by omega)
    rw [h]
    congr 1
    omega
  simp [Union_Find.root, Union_Find.init, Union_Find.rootFuel, hget]

/-- Size lookup on a freshly initialized `Union_Find` returns 1 for an
in-range node. -/
theorem Union_Find.size_init (n p : Nat) (h1 : 1 ≤ p) (h2 : p ≤ n) :
    (Union_Find.init n).cluster_sizes[p - 1]? = some 1 := by
  simp only [Union_Find.init, List.getElem?_replicate]
  rw [if_pos (by omega)]

/-- Claim C8: on `Union_Find(n)` with n ≥ 2, every `union(u, v)` with u, v
in [1, n] raises `TypeError` before completing any merge: `_combine`
iterates the `range` object `self._parents` as `(node_i, parent)` pairs
although its elements are plain integers, so the parents and sizes are
never modified and no union ever succeeds. -/
theorem c8_union_always_raises (n u v : Nat) (hn : 2 ≤ n) (hu1 : 1 ≤ u) (hun : u ≤ n)
    (hv1 : 1 ≤ v) (hvn : v ≤ n) :
    ((Union_Find.init n).union u v).2 = some PyError.typeError ∧
    ((Union_Find.init n).union u v).1.parents = (Union_Find.init n).parents ∧
    ((Union_Find.init n).union u v).1.cluster_sizes = (Union_Find.init n).cluster_sizes := by
  have hru : (Union_Find.init n).root u = some u := Union_Find.root_init n u hu1 hun
  have hrv : (Union_Find.init n).root v = some v := Union_Find.root_init n v hv1 hvn
  have hsu : (Union_Find.init n).cluster_sizes[u - 1]? = some 1 :=
    Union_Find.size_init n u hu1 hun
  have hsv : (Union_Find.init n).cluster_sizes[v - 1]? = some 1 :=
    Union_Find.size_init n v hv1 hvn
  simp only [Union_Find.union, hru, hrv, hsu, hsv, le_refl, if_pos, Union_Find.combine]
  obtain ⟨m, rfl⟩ : ∃ m, n = m + 1 := ⟨n - 1, by omega⟩
  simp [Union_Find.init, List.range'_succ]

/-- Witness for claim C8 at n = 2, u = 1, v = 2. -/
theorem c8_union_always_raises_witness :
    ((Union_Find.init 2).union 1 2).2 = some PyError.typeError ∧
    ((Union_Find.init 2).union 1 2).1.parents = (Union_Find.init 2).parents ∧
    ((Union_Find.init 2).union 1 2).1.cluster_sizes = (Union_Find.init 2).cluster_sizes :=
  c8_union_always_raises 2 1 2 (by decide) (by decide) (by decide) (by decide) (by decide)

/-- Claim C4 (failing input): on a fresh `Union_Find(2)`, the
cross-cluster call `union(1, 2)` does not merge the two clusters and does
not return a boolean — it raises `TypeError`, leaving the parents and
sizes untouched (only the cluster counter was decremented first). -/
theorem c4_union_raises_instead_of_merging :
    (Union_Find.init 2).union 1 2 =
      ({ parents := [1, 2], cluster_sizes := [1, 1], num_clusters := 1 },
        some PyError.typeError) := by
  decide

/-- Claim C5 (failing input): on a fresh `Union_Find(2)`, the redundant
call `union(1, 1)` — both arguments already in the same cluster — is not a
no-op: it decrements `_num_clusters` from 2 to 1 before raising
`TypeError`, so the observable cluster count changes. -/
theorem c5_redundant_union_changes_count :
    ((Union_Find.init 2).union 1 1).1.num_clusters = 1 ∧
    (Union_Find.init 2).num_clusters = 2 ∧
    ((Union_Find.init 2).union 1 1).2 = some PyError.typeError := by
  decide

/-- Claim C6 (failing input): on a fresh `Union_Find(2)`, two successive
redundant calls `union(1, 1)` drive `_num_clusters` from 2 down to 0 while
the parents never change: the counter is decremented once per call by
`_combine` before its `TypeError`, independent of whether a merge happens
or whether the nodes were in distinct clusters, so no call ever performs a
successful union. -/
theorem c6_counter_decrements_without_merges :
    ((((Union_Find.init 2).union 1 1).1).union 1 1).1.num_clusters = 0 ∧
    ((((Union_Find.init 2).union 1 1).1).union 1 1).1.parents = (Union_Find.init 2).parents ∧
    ((((Union_Find.init 2).union 1 1).1).union 1 1).2 = some PyError.typeError := by
  decide

/-- Claim C7 (failing input): on a fresh `Union_Find(2)`, the merging call
`union(1, 2)` attaches nothing and records no size: it raises `TypeError`
in `_combine` before any parent or size update, so no root is ever placed
under another and no size ever becomes the sum of the merged clusters. -/
theorem c7_no_attachment_no_size_update :
    ((Union_Find.init 2).union 1 2).1.cluster_sizes = [1, 1] ∧
    ((Union_Find.init 2).union 1 2).1.parents = [1, 2] ∧
    ((Union_Find.init 2).union 1 2).2 = some PyError.typeError := by
  decide

/-- Claim C3: both public entry points return the placeholder `None` on
every input; neither implements the documented greedy union-find loop. -/
theorem c3_entry_points_return_none :
    (∀ (filename : String) (k_clusters : Int),
      max_spacing_k_clustering filename k_clusters = none) ∧
    (∀ (filename : String) (min_spacing : Int),
      max_k_clusters_for_min_spacing filename min_spacing = none) :=
  ⟨fun _ _ => rfl, fun _ _ => rfl⟩

/-- Inserting an edge into a list places it before every element of
strictly larger cost and after every element of strictly smaller cost, so
filtering by any fixed cost commutes with the insertion up to prepending
the inserted edge when the cost matches. -/
theorem filter_orderedInsert_cost (a : Edge) (c : Nat) (s : List Edge) :
    (List.orderedInsert Edge.le a s).filter (fun e => e.cost == c) =
      if a.cost = c then a :: s.filter (fun e => e.cost == c)
      else s.filter (fun e => e.cost == c) := by
  induction s with
  | nil =>
    by_cases hac : a.cost = c <;> simp [List.orderedInsert, hac]
  | cons b l ih =>
    by_cases hab : Edge.le a b
    · rw [List.orderedInsert, if_pos hab]
      by_cases hac : a.cost = c <;> simp [List.filter_cons, hac]
    · rw [List.orderedInsert, if_neg hab]
      have hba : b.cost < a.cost := Nat.lt_of_not_le hab
      by_cases hac : a.cost = c
      · have hbc : ¬(b.cost = c) := by omega
        simp [List.filter_cons, hbc, ih, hac]
      · by_cases hbc : b.cost = c <;> simp [List.filter_cons, hbc, ih, hac]

/-- Filtering by any fixed cost commutes with the stable insertion sort:
the edges of each cost class keep their relative input order. -/
theorem filter_insertionSort_cost (c : Nat) (l : List Edge) :
    (List.insertionSort Edge.le l).filter (fun e => e.cost == c) =
      l.filter (fun e => e.cost == c) := by
  induction l with
  | nil => rfl
  | cons a t ih =>
    rw [List.insertionSort, filter_orderedInsert_cost]
    by_cases hac : a.cost = c <;> simp [List.filter_cons, hac, ih]

/-- Claim C9: `sort_edges` returns the same multiset of edges ordered by
non-decreasing cost, and the sort is stable — for every cost value the
subsequence of edges of that cost equals the corresponding subsequence of
the input, so equal-cost edges keep their relative input order.  Being a
pure function of the edge list, repeated runs on the same input produce
the identical output sequence. -/
theorem c9_sort_edges_sorted_and_stable (edges : List Edge) :
    List.Sorted (fun a b => a.cost ≤ b.cost) (sort_edges edges) ∧
    List.Perm (sort_edges edges) edges ∧
    ∀ c : Nat, (sort_edges edges).filter (fun e => e.cost == c) =
      edges.filter (fun e => e.cost == c) :=
  ⟨List.sorted_insertionSort Edge.le edges, List.perm_insertionSort Edge.le edges,
    fun c => filter_insertionSort_cost c edges⟩

/-- `make n` yields exactly n clusters: the representatives 1..n are
pairwise distinct. -/
theorem DisjointSet.clusterCount_make (n : Nat) :
    (DisjointSet.make n).clusterCount = n := by
  simp [DisjointSet.make, DisjointSet.clusterCount,
    List.Nodup.dedup (List.nodup_range' 1 n)]

/-- Claim C1: `spacingForTargetK` fails with `InsufficientClusters`
whenever k ≤ 0 (k = 0 for the count type) or k > N, and on the modelled
example dataset the three stated results hold simultaneously against the
one fixed edge list: spacing 5 for k = 2, spacing 2 for k = 3, and
spacing 1 for k = 4.  For 1 ≤ k ≤ N the definition pulls the edges in
ascending cost order, unions endpoints exactly when they lie in different
clusters until the cluster count equals k, and returns the cost of the
first remaining edge, in the same order, whose endpoints are still in
different clusters. -/
theorem c1_spacingForTargetK_results :
    (∀ (edges : List Edge) (n k : Nat), k = 0 ∨ n < k →
      spacingForTargetK edges n k = Except.error ClusterError.insufficientClusters) ∧
    spacingForTargetK exampleEdges 4 2 = Except.ok 5 ∧
    spacingForTargetK exampleEdges 4 3 = Except.ok 2 ∧
    spacingForTargetK exampleEdges 4 4 = Except.ok 1 := by
  refine ⟨fun edges n k h => ?_, by rfl, by rfl, by rfl⟩
  rw [spacingForTargetK, if_pos h]

/-- Witness for claim C1: the failure branch at the concrete input
k = 5 > N = 4. -/
theorem c1_spacingForTargetK_results_witness :
    spacingForTargetK exampleEdges 4 5 = Except.error ClusterError.insufficientClusters :=
  c1_spacingForTargetK_results.1 exampleEdges 4 5 (Or.inr (by decide))

/-- Claim C2: for minSpacing ≥ 1, `maxKForMinSpacing` unions exactly the
candidate pairs of the distance classes 1 .. minSpacing − 1 (taken in
ascending class order) and returns the resulting `clusterCount()`: every
pair it unions is at Hamming distance at least 1 and strictly below
minSpacing — so nodes at distance ≥ minSpacing are never unioned — and
for minSpacing = 1 no pair is processed at all and the result is exactly
N, the number of labelled nodes. -/
theorem c2_maxKForMinSpacing_classes (labels : List Nat) (w minSpacing : Nat)
    (hms : 1 ≤ minSpacing) :
    (∀ p ∈ processedPairs labels w minSpacing,
      1 ≤ hammingDistance w (labelOf labels p.1) (labelOf labels p.2) ∧
      hammingDistance w (labelOf labels p.1) (labelOf labels p.2) < minSpacing) ∧
    (minSpacing = 1 →
      processedPairs labels w minSpacing = [] ∧
      maxKForMinSpacing labels w minSpacing = labels.length) := by
  constructor
  · intro p hp
    rw [processedPairs] at hp
    simp only [List.mem_flatMap] at hp
    obtain ⟨d, hd, hpd⟩ := hp
    rw [pairsAtDistance] at hpd
    simp only [List.mem_filter, decide_eq_true_eq] at hpd
    have hdr := List.mem_range'_1.mp hd
    omega
  · rintro rfl
    constructor
    · rfl
    · rw [maxKForMinSpacing]
      have hpp : processedPairs labels w 1 = [] := rfl
      rw [hpp]
      exact DisjointSet.clusterCount_make labels.length

/-- Witness for claim C2 at the concrete input of three 3-bit labels and
minSpacing = 1: no pair is processed and the cluster count is N = 3. -/
theorem c2_maxKForMinSpacing_classes_witness :
    processedPairs [0, 1, 6] 3 1 = [] ∧ maxKForMinSpacing [0, 1, 6] 3 1 = 3 :=
  (c2_maxKForMinSpacing_classes [0, 1, 6] 3 1 (by decide)).2 rfl

/-- The width-w Hamming distance between `L` and `L ^^^ m` counts the bits
of the mask `m` below w. -/
theorem hammingDistance_xor (w L m : Nat) :
    hammingDistance w L (L ^^^ m) =
      ((Finset.range w).filter fun t => m.testBit t = true).card := by
  unfold hammingDistance
  congr 1
  apply Finset.filter_congr
  intro t _
  rw [Nat.testBit_xor]
  cases L.testBit t <;> cases m.testBit t <;> simp

/-- The bits of `2 ^ i` below w are exactly position i, for i < w. -/
theorem filter_testBit_two_pow (w i : Nat) (h : i < w) :
    ((Finset.range w).filter fun t => (2 ^ i).testBit t = true) = {i} := by
  ext t
  simp only [Finset.mem_filter, Finset.mem_range, Nat.testBit_two_pow,
    decide_eq_true_eq, Finset.mem_singleton]
  constructor
  · rintro ⟨-, rfl⟩
    rfl
  · rintro rfl
    exact ⟨h, rfl⟩

/-- The bits of `2 ^ i ^^^ 2 ^ j` below w are exactly positions i and j,
for distinct i, j < w. -/
theorem filter_testBit_two_pow_xor (w i j : Nat) (hij : i ≠ j) (hiw : i < w) (hjw : j < w) :
    ((Finset.range w).filter fun t => (2 ^ i ^^^ 2 ^ j).testBit t = true) = {i, j} := by
  ext t
  simp only [Finset.mem_filter, Finset.mem_range, Nat.testBit_xor, Nat.testBit_two_pow,
    Finset.mem_insert, Finset.mem_singleton]
  constructor
  · rintro ⟨htw, hx⟩
    by_cases hti : i = t
    · exact Or.inl hti.symm
    · by_cases htj : j = t
      · exact Or.inr htj.symm
      · simp [hti, htj] at hx
  · rintro (rfl | rfl)
    · refine ⟨hiw, ?_⟩
      simp [Ne.symm hij]
    · refine ⟨hjw, ?_⟩
      simp [hij]

/-- Gauss sum of the list `0, 1, …, w − 1` as a binomial coefficient. -/
theorem sum_range_id_eq_choose (w : Nat) :
    (((List.range w).map fun j => j).sum = Nat.choose w 2) := by
  induction w with
  | zero => rfl
  | succ n ih =>
    rw [List.range_succ, List.map_append, List.sum_append]
    have hc : Nat.choose (n + 1) 2 = Nat.choose n 1 + Nat.choose n 2 :=
      Nat.choose_succ_succ n 1
    simp only [List.map_cons, List.map_nil, List.sum_cons, List.sum_nil, ih]
    rw [hc, Nat.choose_one_right]
    omega

/-- Claim C10: the per-node lookup schedule of the implicit Hamming
candidate generator performs exactly bitWidth + C(bitWidth, 2) + 1 map
lookups — one for the label itself, one per flipped single bit and one per
flipped unordered bit pair, a count independent of the number of nodes —
and every looked-up label is at Hamming distance at most 2 from the
node's label, so only pairs at distance 0, 1 or 2 are ever emitted and a
pair at distance 3 or more is never generated. -/
theorem c10_lookups_count_and_distance (w L : Nat) :
    (lookups w L).length = w + Nat.choose w 2 + 1 ∧
    ∀ m ∈ lookups w L, hammingDistance w L m ≤ 2 := by
  constructor
  · simp only [lookups, List.length_cons, List.length_append, List.length_map,
      List.length_range, List.length_flatMap, Function.comp_def]
    rw [sum_range_id_eq_choose]
  · intro m hm
    simp only [lookups, List.mem_cons, List.mem_append, List.mem_map,
      List.mem_flatMap, List.mem_range] at hm
    rcases hm with rfl | ⟨i, hi, rfl⟩ | ⟨j, hj, i, hi, rfl⟩
    · have h0 : ∀ a : Nat, hammingDistance w a a = 0 := by
        intro a
        unfold hammingDistance
        rw [Finset.filter_eq_empty_iff.mpr (by intro t _ ; simp)]
        rfl
      simp [h0]
    · rw [hammingDistance_xor, filter_testBit_two_pow w i hi]
      simp
    · rw [hammingDistance_xor,
        filter_testBit_two_pow_xor w i j (by omega) (by omega) hj,
        Finset.card_pair (by omega)]
